import Mathlib

/-!
# Verification of the single-slide scene editor core

Shallow embedding of the document engine of `src/src/app/build/page.tsx`:
the shape data model, the bounded undo/redo history, the viewport
(fit-to-screen, pointer-anchored zoom) math, grid snapping, alignment,
z-order reordering, and the transform-end resize reconciliation.

JS numbers are modelled as exact rationals (`Rat`); TS optional fields as
`Option`; the React `setState` sequencing of `commit`/`undo`/`redo` as pure
transitions on an explicit `EditorState`.
-/

namespace SlideEditor

/-- Shared base attributes of every shape (TS `BaseShape`). -/
structure BaseFields where
  id : String
  x : Rat
  y : Rat
  rotation : Rat
  name : Option String
  locked : Option Bool
  hidden : Option Bool
deriving DecidableEq

/-- TS `RectShape` (minus the literal `kind` tag, carried by the variant). -/
structure RectShape where
  base : BaseFields
  width : Rat
  height : Rat
  fill : String
  stroke : Option String
  strokeWidth : Option Rat
  cornerRadius : Option Rat
deriving DecidableEq

/-- TS `CircleShape`. -/
structure CircleShape where
  base : BaseFields
  radius : Rat
  fill : String
  stroke : Option String
  strokeWidth : Option Rat
deriving DecidableEq

/-- TS `TextShape`; `width` is the optional wrapping box width. -/
structure TextShape where
  base : BaseFields
  text : String
  fontSize : Rat
  width : Option Rat
  fill : String
deriving DecidableEq

/-- TS `ImageShape`; `src` is the content handle. -/
structure ImageShape where
  base : BaseFields
  width : Rat
  height : Rat
  src : String
deriving DecidableEq

/-- TS `Shape`, the tagged union of the four kinds. -/
inductive Shape where
  | rect : RectShape → Shape
  | circle : CircleShape → Shape
  | text : TextShape → Shape
  | image : ImageShape → Shape
deriving DecidableEq

/-- The shared base record of a shape. -/
def Shape.base : Shape → BaseFields
  | .rect r => r.base
  | .circle c => c.base
  | .text t => t.base
  | .image i => i.base

/-- `s.id` as used throughout the source. -/
def Shape.id (s : Shape) : String := s.base.id

/-- `s.x`. -/
def Shape.x (s : Shape) : Rat := s.base.x

/-- `s.y`. -/
def Shape.y (s : Shape) : Rat := s.base.y

/-- Replace the position of a shape (the `updateShape(s.id, {x, y})` merge). -/
def Shape.setXY : Shape → Rat → Rat → Shape
  | .rect r, a, b => .rect { r with base := { r.base with x := a, y := b } }
  | .circle c, a, b => .circle { c with base := { c.base with x := a, y := b } }
  | .text t, a, b => .text { t with base := { t.base with x := a, y := b } }
  | .image i, a, b => .image { i with base := { i.base with x := a, y := b } }

/-- `const SLIDE_W = 1920`. -/
def SLIDE_W : Rat := 1920

/-- `const SLIDE_H = 1080`. -/
def SLIDE_H : Rat := 1080

/-- `const clamp = (v, min, max) => Math.max(min, Math.min(max, v))`. -/
def clamp (v lo hi : Rat) : Rat := max lo (min hi v)

/-- JS `Math.round` (round half toward positive infinity). -/
def jsRound (q : Rat) : Rat := (⌊q + 1/2⌋ : Int)

/-- The `snap` callback: `gridEnabled ? Math.round(n / gridSize) * gridSize : n`. -/
def snap (gridEnabled : Bool) (gridSize : Rat) (n : Rat) : Rat :=
  if gridEnabled then jsRound (n / gridSize) * gridSize else n

/-- The viewport: zoom `scale` plus the screen-pixel `offset` pair. -/
structure Viewport where
  scale : Rat
  offsetX : Rat
  offsetY : Rat
deriving DecidableEq

/-- `fitToScreen`: guard on a falsy container dimension, otherwise
`min(width / SLIDE_W, height / SLIDE_H)` and a centering offset. -/
def fitToScreen (width height : Rat) (vp : Viewport) : Viewport :=
  if width = 0 ∨ height = 0 then vp
  else
    let scaleX := width / SLIDE_W
    let scaleY := height / SLIDE_H
    let nextScale := min scaleX scaleY
    { scale := nextScale
      offsetX := (width - SLIDE_W * nextScale) / 2
      offsetY := (height - SLIDE_H * nextScale) / 2 }

/-- `zoomBy(factor, center)` with an explicit pointer anchor: unproject the
anchor at the old scale, clamp the new scale to `[0.1, 4]`, and re-derive the
offset so the anchor's document point maps back to the anchor. -/
def zoomBy (factor px py : Rat) (vp : Viewport) : Viewport :=
  let oldScale := vp.scale
  let mouseX := (px - vp.offsetX) / oldScale
  let mouseY := (py - vp.offsetY) / oldScale
  let newScale := clamp (oldScale * factor) (1/10) 4
  { scale := newScale
    offsetX := px - mouseX * newScale
    offsetY := py - mouseY * newScale }

/-- Screen-to-document conversion `(screenPoint - offset) / scale`, the
`mousePointTo` computation of `zoomBy`. -/
def toDocument (px py : Rat) (vp : Viewport) : Rat × Rat :=
  ((px - vp.offsetX) / vp.scale, (py - vp.offsetY) / vp.scale)

/-- The editor's document/history state: the `shapes`, `history` and `future`
React state cells. -/
structure EditorState where
  shapes : List Shape
  history : List (List Shape)
  future : List (List Shape)
deriving DecidableEq

/-- `commit(next)`: resolve the mutator against the current snapshot, push the
pre-mutation snapshot onto the past stack trimmed to the most recent 49
(`h.slice(-49)`), clear the future stack, and make the resolved snapshot
current (`structuredClone` is the identity under value semantics). -/
def commit (next : List Shape → List Shape) (st : EditorState) : EditorState :=
  { shapes := next st.shapes
    history := st.history.drop (st.history.length - 49) ++ [st.shapes]
    future := [] }

/-- `undo()`: no-op on an empty past stack; otherwise prepend the current
snapshot to the future stack trimmed to 50 (`[shapes, ...f].slice(0, 50)`),
make the top of the past stack current, and pop it (`h.slice(0, -1)`). -/
def undo (st : EditorState) : EditorState :=
  if st.history.isEmpty then st
  else
    { shapes := st.history.getLastD []
      history := st.history.dropLast
      future := (st.shapes :: st.future).take 50 }

/-- `redo()`: no-op on an empty future stack; otherwise append the current
snapshot to the past stack trimmed to the last 50 (`[...h, shapes].slice(-50)`),
make the head of the future stack current, and drop it (`f.slice(1)`). -/
def redo (st : EditorState) : EditorState :=
  match st.future with
  | [] => st
  | q :: rest =>
    { shapes := q
      history := (st.history ++ [st.shapes]).drop ((st.history.length + 1) - 50)
      future := rest }

/-- `canRedo` as exposed to the toolbar: the future stack is non-empty
(`disabled={future.length === 0}`). -/
def canRedo (st : EditorState) : Bool := !st.future.isEmpty

/-- `canUndo`: the past stack is non-empty. -/
def canUndo (st : EditorState) : Bool := !st.history.isEmpty

/-- A sequence of committed mutations, applied left to right. -/
def commits (ms : List (List Shape → List Shape)) (st : EditorState) : EditorState :=
  ms.foldl (fun σ m => commit m σ) st

/-- The pre-mutation snapshots a mutation sequence passes through: running
`ms` from snapshot `s`, the snapshot current just before each commit. -/
def snapsAlong : List (List Shape → List Shape) → List Shape → List (List Shape)
  | [], _ => []
  | m :: ms, s => s :: snapsAlong ms (m s)

/-- The snapshot obtained by running all mutators in order. -/
def applyAll (ms : List (List Shape → List Shape)) (s : List Shape) : List Shape :=
  ms.foldl (fun a m => m a) s

/-- The last `n` elements of a list (JS `slice(-n)`). -/
def lastN (n : Nat) (l : List (List Shape)) : List (List Shape) :=
  l.drop (l.length - n)

/-- JS `Array.prototype.findIndex`, with `none` for the sentinel `-1`. -/
def findIndex (p : Shape → Bool) : List Shape → Option Nat
  | [] => none
  | s :: rest => if p s then some 0 else (findIndex p rest).map (· + 1)

/-- The shape appends performed by `addRect`/`addCircle`/`addText`/
`onImageUpload`: `commit((prev) => [...prev, s])`, with no duplicate-id
check. -/
def addShape (s : Shape) (prev : List Shape) : List Shape := prev ++ [s]

/-- `bringForward(id)`'s mutator: swap the shape with its next neighbor;
no-op when the identifier is absent (`idx < 0`) or already topmost
(`idx === prev.length - 1`). -/
def bringForward (id : String) (prev : List Shape) : List Shape :=
  match findIndex (fun s => s.id == id) prev with
  | none => prev
  | some idx =>
    if idx = prev.length - 1 then prev
    else
      match prev[idx]?, prev[idx + 1]? with
      | some a, some b => (prev.set idx b).set (idx + 1) a
      | _, _ => prev

/-- `sendBackward(id)`'s mutator: swap the shape with its previous neighbor;
no-op when the identifier is absent or already bottommost (`idx <= 0`). -/
def sendBackward (id : String) (prev : List Shape) : List Shape :=
  match findIndex (fun s => s.id == id) prev with
  | none => prev
  | some idx =>
    if idx = 0 then prev
    else
      match prev[idx]?, prev[idx - 1]? with
      | some a, some b => (prev.set idx b).set (idx - 1) a
      | _, _ => prev

/-- The alignment directions of `alignSelected`. -/
inductive AlignDir where
  | left | centerX | right | top | centerY | bottom
deriving DecidableEq

/-- `alignSelected`'s `getSize`: the effective bounding box of a shape. -/
def getSize : Shape → Rat × Rat
  | .rect r => (r.width, r.height)
  | .image i => (i.width, i.height)
  | .circle c => (c.radius * 2, c.radius * 2)
  | .text t => (t.width.getD 300, t.fontSize * (12/10))

/-- The document effect of `alignSelected(dir)` on the selected shape:
compute the target coordinates from the bounding box and commit
`updateShape(s.id, { x: snap(nx), y: snap(ny) })`. -/
def alignShape (gridEnabled : Bool) (gridSize : Rat) (dir : AlignDir) (s : Shape) : Shape :=
  let wh := getSize s
  let w := wh.1
  let h := wh.2
  let nx : Rat :=
    match dir with
    | .left => 0
    | .centerX => (SLIDE_W - w) / 2
    | .right => SLIDE_W - w
    | _ => s.x
  let ny : Rat :=
    match dir with
    | .top => 0
    | .centerY => (SLIDE_H - h) / 2
    | .bottom => SLIDE_H - h
    | _ => s.y
  s.setXY (snap gridEnabled gridSize nx) (snap gridEnabled gridSize ny)

/-- What the Konva node reports at `onTransformEnd`: position, rotation, and
the accumulated transient scale factors. -/
structure NodeEnd where
  x : Rat
  y : Rat
  rotation : Rat
  scaleX : Rat
  scaleY : Rat
deriving DecidableEq

/-- The rect `onTransformEnd` handler: read the scales, reset the node scale
to 1, and commit the absolute size `Math.max(10, size * scale)` together with
the snapped position and the rotation.  The second component is the node's
transient scale after the handler. -/
def rectTransformEnd (gridEnabled : Bool) (gridSize : Rat) (s : RectShape)
    (n : NodeEnd) : RectShape × (Rat × Rat) :=
  ({ s with
      base := { s.base with
        x := snap gridEnabled gridSize n.x
        y := snap gridEnabled gridSize n.y
        rotation := n.rotation }
      width := max 10 (s.width * n.scaleX)
      height := max 10 (s.height * n.scaleY) },
   (1, 1))

/-- The circle `onTransformEnd` handler: only `scaleX` is read; the committed
radius is `Math.max(5, s.radius * scaleX)`; both node scales are reset. -/
def circleTransformEnd (gridEnabled : Bool) (gridSize : Rat) (s : CircleShape)
    (n : NodeEnd) : CircleShape × (Rat × Rat) :=
  ({ s with
      base := { s.base with
        x := snap gridEnabled gridSize n.x
        y := snap gridEnabled gridSize n.y
        rotation := n.rotation }
      radius := max 5 (s.radius * n.scaleX) },
   (1, 1))

/-- The text `onTransformEnd` handler: the committed box width is
`Math.max(50, (s.width ?? 300) * scaleX)`; both node scales are reset. -/
def textTransformEnd (gridEnabled : Bool) (gridSize : Rat) (s : TextShape)
    (n : NodeEnd) : TextShape × (Rat × Rat) :=
  ({ s with
      base := { s.base with
        x := snap gridEnabled gridSize n.x
        y := snap gridEnabled gridSize n.y
        rotation := n.rotation }
      width := some (max 50 ((s.width.getD 300) * n.scaleX)) },
   (1, 1))

/-- The image `onTransformEnd` handler (in `ImageNode`): same floors as the
rect handler. -/
def imageTransformEnd (gridEnabled : Bool) (gridSize : Rat) (s : ImageShape)
    (n : NodeEnd) : ImageShape × (Rat × Rat) :=
  ({ s with
      base := { s.base with
        x := snap gridEnabled gridSize n.x
        y := snap gridEnabled gridSize n.y
        rotation := n.rotation }
      width := max 10 (s.width * n.scaleX)
      height := max 10 (s.height * n.scaleY) },
   (1, 1))

/-- A minimal concrete rectangle used by witnesses and counterexamples; `v`
gives distinguishable coordinates. -/
def mkRect (v : Rat) : Shape :=
  .rect ⟨⟨"r", v, 0, 0, none, none, none⟩, 10, 10, "f", none, none, none⟩

/-- A concrete rectangle at `y = 5`, off the 32-pixel grid. -/
def cexRect : Shape :=
  .rect ⟨⟨"a", 100, 5, 0, none, none, none⟩, 320, 180, "f", none, none, none⟩

/-- Two concrete committed mutations. -/
def ms2 : List (List Shape → List Shape) :=
  [fun _ => [mkRect 1], fun _ => [mkRect 2]]

/-- Fifty-one concrete committed mutations, each replacing the document. -/
def ms51 : List (List Shape → List Shape) :=
  (List.range 51).map (fun i _ => [mkRect i])

/-- Sixty concrete committed mutations, each replacing the document. -/
def ms60 : List (List Shape → List Shape) :=
  (List.range 60).map (fun i _ => [mkRect i])

/-- A concrete transform-end report with scale factors 2 and 3. -/
def wNode : NodeEnd := ⟨7, 9, 45, 2, 3⟩

/-- A concrete 20-by-20 rectangle record. -/
def wRect : RectShape := ⟨⟨"wr", 0, 0, 0, none, none, none⟩, 20, 20, "f", none, none, none⟩

/-- A concrete radius-4 circle record. -/
def wCircle : CircleShape := ⟨⟨"wc", 0, 0, 0, none, none, none⟩, 4, "f", none, none⟩

/-- A concrete text record with no explicit box width. -/
def wText : TextShape := ⟨⟨"wt", 0, 0, 0, none, none, none⟩, "hi", 40, none, "f"⟩

/-- A concrete 30-by-20 image record. -/
def wImage : ImageShape := ⟨⟨"wi", 0, 0, 0, none, none, none⟩, 30, 20, "u"⟩

/-! ## Theorems -/

/-- A list of length at most `n` is its own last-`n` suffix. -/
theorem lastN_of_le {n : Nat} {l : List (List Shape)} (h : l.length ≤ n) :
    lastN n l = l := by
  simp [lastN, Nat.sub_eq_zero_of_le h]

/-- `lastN` via reverse-and-take. -/
theorem lastN_eq_reverse_take (n : Nat) (l : List (List Shape)) :
    lastN n l = (l.reverse.take n).reverse := by
  rw [lastN, List.take_reverse, List.reverse_reverse]

/-- Trimming to the last `n` before appending does not change the last `n`
of the whole. -/
theorem lastN_absorb (n : Nat) (A B : List (List Shape)) :
    lastN n (lastN n A ++ B) = lastN n (A ++ B) := by
  simp only [lastN_eq_reverse_take]
  rw [List.reverse_append, List.reverse_reverse, List.reverse_append,
      List.take_append_eq_append_take, List.take_append_eq_append_take,
      List.take_take]
  rw [min_eq_left (Nat.sub_le _ _)]

/-- `commit` in closed form: the new past stack is the last 50 of the old
past stack with the pre-mutation snapshot appended. -/
theorem commit_eq (m : List Shape → List Shape) (σ : EditorState) :
    commit m σ = ⟨m σ.shapes, lastN 50 (σ.history ++ [σ.shapes]), []⟩ := by
  have h1 : σ.history.length + 1 - 50 = σ.history.length - 49 := by omega
  have h2 : σ.history.length - 49 - σ.history.length = 0 := by omega
  simp [commit, lastN, List.length_append, List.drop_append_eq_append_drop, h1, h2]

/-- The past stack never exceeds 50 entries after a commit. -/
theorem commit_history_le (m : List Shape → List Shape) (σ : EditorState) :
    (commit m σ).history.length ≤ 50 := by
  simp only [commit, List.length_append, List.length_drop, List.length_cons,
    List.length_nil]
  omega

/-- `undo` on a state whose past stack ends in `p`. -/
theorem undo_concat (c : List Shape) (H : List (List Shape)) (p : List Shape)
    (f : List (List Shape)) :
    undo ⟨c, H ++ [p], f⟩ = ⟨p, H, (c :: f).take 50⟩ := by
  have hne : (H ++ [p]).isEmpty = false := by
    simp [List.isEmpty_iff]
  simp [undo, hne, List.getLastD_eq_getLast?, List.getLast?_concat,
    List.dropLast_concat]

/-- `undo` is the identity on a state with an empty past stack. -/
theorem undo_nil (st : EditorState) (h : st.history = []) : undo st = st := by
  simp [undo, h]

/-- Every snapshot reachable by iterated undo is the current snapshot or an
entry of the past stack. -/
theorem undo_reach (k : Nat) :
    ∀ st : EditorState, (undo^[k] st).shapes ∈ st.shapes :: st.history := by
  induction k with
  | zero => intro st; simp
  | succ k ih =>
    intro st
    rw [Function.iterate_succ_apply]
    by_cases h : st.history = []
    · rw [undo_nil st h]
      exact ih st
    · have hu : undo st =
          ⟨st.history.getLast h, st.history.dropLast, (st.shapes :: st.future).take 50⟩ := by
        conv_lhs => rw [show st = ⟨st.shapes, st.history, st.future⟩ from rfl,
          ← List.dropLast_append_getLast h]
        exact undo_concat _ _ _ _
      rw [hu]
      have hm := ih ⟨st.history.getLast h, st.history.dropLast, (st.shapes :: st.future).take 50⟩
      rw [List.mem_cons] at hm
      rcases hm with hmem | hmem
      · exact List.mem_cons_of_mem _ (by rw [hmem]; exact List.getLast_mem h)
      · exact List.mem_cons_of_mem _ (List.dropLast_subset _ hmem)

/-- Undoing as many times as a block of entries on top of the past stack pops
exactly that block: the bottom of the block (or the current snapshot, if the
block is empty) becomes current, the rest of the block and the old current
snapshot are prepended to the future stack. -/
theorem undo_run (h₀ : List (List Shape)) (ps : List (List Shape)) :
    ∀ (c : List Shape) (f : List (List Shape)), ps.length + f.length ≤ 50 →
    undo^[ps.length] ⟨c, h₀ ++ ps, f⟩ =
      ⟨(ps ++ [c]).headD c, h₀, (ps ++ [c]).tail ++ f⟩ := by
  induction ps using List.reverseRecOn with
  | nil => intro c f _; simp
  | append_singleton qs p ih =>
    intro c f hlen
    rw [List.length_append, List.length_cons, List.length_nil, Nat.zero_add,
      Function.iterate_succ_apply, ← List.append_assoc, undo_concat]
    have hq : qs.length + 1 + f.length ≤ 50 := by
      simpa [List.length_append] using hlen
    rw [List.take_of_length_le (by simp; omega)]
    rw [ih p (c :: f) (by simp; omega)]
    cases qs with
    | nil => simp
    | cons q qs' => simp

/-- `redo` on a state with a non-empty future stack. -/
theorem redo_cons (c q : List Shape) (h rest : List (List Shape)) :
    redo ⟨c, h, q :: rest⟩ =
      ⟨q, (h ++ [c]).drop ((h.length + 1) - 50), rest⟩ := rfl

/-- Redoing as many times as a block at the front of the future stack
replays exactly that block: the last entry of the block becomes current and
the remainder of the future stack is what followed the block. -/
theorem redo_run (fs : List (List Shape)) :
    ∀ (c : List Shape) (h rest : List (List Shape)),
    (redo^[fs.length] ⟨c, h, fs ++ rest⟩).shapes = (c :: fs).getLastD [] ∧
    (redo^[fs.length] ⟨c, h, fs ++ rest⟩).future = rest := by
  induction fs with
  | nil => intro c h rest; simp [List.getLastD]
  | cons q fs' ih =>
    intro c h rest
    rw [List.length_cons, Function.iterate_succ_apply, List.cons_append, redo_cons]
    have := ih q ((h ++ [c]).drop ((h.length + 1) - 50)) rest
    refine ⟨?_, this.2⟩
    rw [this.1]
    simp [List.getLastD_cons]

/-- There are as many traversed snapshots as mutations. -/
theorem snapsAlong_length :
    ∀ (ms : List (List Shape → List Shape)) (s : List Shape),
    (snapsAlong ms s).length = ms.length := by
  intro ms
  induction ms with
  | nil => intro s; rfl
  | cons m ms ih => intro s; simp [snapsAlong, ih]

/-- Unfolding `commits` one step. -/
theorem commits_cons (m : List Shape → List Shape)
    (ms : List (List Shape → List Shape)) (σ : EditorState) :
    commits (m :: ms) σ = commits ms (commit m σ) := rfl

/-- The current snapshot after a mutation sequence. -/
theorem commits_shapes :
    ∀ (ms : List (List Shape → List Shape)) (σ : EditorState),
    (commits ms σ).shapes = applyAll ms σ.shapes := by
  intro ms
  induction ms with
  | nil => intro σ; rfl
  | cons m ms ih => intro σ; rw [commits_cons, ih, applyAll]; rfl

/-- A non-empty mutation sequence leaves the future stack empty. -/
theorem commits_future :
    ∀ (ms : List (List Shape → List Shape)) (σ : EditorState), ms ≠ [] →
    (commits ms σ).future = [] := by
  intro ms
  induction ms with
  | nil => intro σ h; exact absurd rfl h
  | cons m ms ih =>
    intro σ _
    rw [commits_cons]
    cases ms with
    | nil => rfl
    | cons m' ms' => exact ih (commit m σ) (by simp)

/-- The past stack after a mutation sequence: the last 50 of the old past
stack extended by the traversed pre-mutation snapshots. -/
theorem commits_history :
    ∀ (ms : List (List Shape → List Shape)) (σ : EditorState),
    σ.history.length ≤ 50 →
    (commits ms σ).history = lastN 50 (σ.history ++ snapsAlong ms σ.shapes) := by
  intro ms
  induction ms with
  | nil =>
    intro σ h
    rw [show commits [] σ = σ from rfl, snapsAlong, List.append_nil, lastN_of_le h]
  | cons m ms ih =>
    intro σ h
    rw [commits_cons, ih _ (commit_history_le m σ),
      show (commit m σ).history = lastN 50 (σ.history ++ [σ.shapes]) from by
        rw [commit_eq],
      show (commit m σ).shapes = m σ.shapes from rfl,
      lastN_absorb, List.append_assoc]
    rfl

/-- `Shape.setXY` writes the `x` coordinate. -/
theorem setXY_x (s : Shape) (a b : Rat) : (s.setXY a b).x = a := by
  cases s <;> rfl

/-- `Shape.setXY` writes the `y` coordinate. -/
theorem setXY_y (s : Shape) (a b : Rat) : (s.setXY a b).y = b := by
  cases s <;> rfl

/-- Undoing once per entry of a block on top of the past stack and then
redoing the same number of times returns to the snapshot current before the
undos. -/
theorem run_round_trip (F s0 : List Shape) (tailS h' : List (List Shape))
    (hlen : tailS.length + 1 ≤ 50) :
    (undo^[tailS.length + 1] ⟨F, h' ++ (s0 :: tailS), []⟩).shapes = s0 ∧
    (redo^[tailS.length + 1]
      (undo^[tailS.length + 1] ⟨F, h' ++ (s0 :: tailS), []⟩)).shapes = F := by
  have h1 : (s0 :: tailS).length + ([] : List (List Shape)).length ≤ 50 := by
    simp only [List.length_cons, List.length_nil, Nat.add_zero]
    omega
  have hu := undo_run h' (s0 :: tailS) F [] h1
  rw [List.length_cons] at hu
  rw [hu]
  constructor
  · rfl
  · have hsimp : ((s0 :: tailS) ++ [F]).headD F = s0 := rfl
    have htail : ((s0 :: tailS) ++ [F]).tail ++ ([] : List (List Shape)) = tailS ++ [F] := by
      simp
    rw [hsimp, htail]
    have hr := redo_run (tailS ++ [F]) s0 h' []
    rw [List.append_nil] at hr
    have hlen2 : (tailS ++ [F]).length = tailS.length + 1 := by simp
    rw [hlen2] at hr
    rw [hr.1]
    rw [show s0 :: (tailS ++ [F]) = (s0 :: tailS) ++ [F] from rfl,
      List.getLastD_eq_getLast?, List.getLast?_concat]
    rfl

/-- C1 (amended): for every starting state whose past stack holds at most 50
entries, and every sequence of n ≤ 50 committed mutations, calling `undo` n
times restores the starting snapshot exactly, and calling `redo` n times
after that restores the final snapshot exactly; for n > 50 the oldest
pre-mutation snapshots are discarded by the 50-entry history bound, so the
starting snapshot need not be recoverable. -/
theorem history_round_trip (σ0 : EditorState) (ms : List (List Shape → List Shape))
    (hn : ms.length ≤ 50) (hh : σ0.history.length ≤ 50) :
    (undo^[ms.length] (commits ms σ0)).shapes = σ0.shapes ∧
    (redo^[ms.length] (undo^[ms.length] (commits ms σ0))).shapes =
      (commits ms σ0).shapes := by
  cases ms with
  | nil => exact ⟨rfl, rfl⟩
  | cons m rest =>
    have hsl := snapsAlong_length rest (m σ0.shapes)
    have hhist : (commits (m :: rest) σ0).history =
        σ0.history.drop ((σ0.history.length + (m :: rest).length) - 50) ++
          snapsAlong (m :: rest) σ0.shapes := by
      have h0 : σ0.history.length + (m :: rest).length - 50 - σ0.history.length = 0 := by
        omega
      rw [commits_history _ _ hh, lastN, List.length_append,
        snapsAlong_length, List.drop_append_eq_append_drop, h0, List.drop_zero]
    have hfut : (commits (m :: rest) σ0).future = [] :=
      commits_future _ _ (by simp)
    have hfin : commits (m :: rest) σ0 =
        ⟨(commits (m :: rest) σ0).shapes,
         σ0.history.drop ((σ0.history.length + (m :: rest).length) - 50) ++
           (σ0.shapes :: snapsAlong rest (m σ0.shapes)), []⟩ := by
      calc commits (m :: rest) σ0
          = ⟨(commits (m :: rest) σ0).shapes, (commits (m :: rest) σ0).history,
             (commits (m :: rest) σ0).future⟩ := rfl
        _ = _ := by rw [hhist, hfut]; rfl
    rw [List.length_cons, hfin]
    have hlen : (snapsAlong rest (m σ0.shapes)).length + 1 ≤ 50 := by
      rw [hsl]
      simpa using hn
    have hmain := run_round_trip (commits (m :: rest) σ0).shapes σ0.shapes
      (snapsAlong rest (m σ0.shapes))
      (σ0.history.drop ((σ0.history.length + (m :: rest).length) - 50)) hlen
    rw [hsl] at hmain
    exact hmain

/-- C1 witness: round trip through two concrete committed mutations from the
empty document. -/
theorem history_round_trip_witness :
    (undo^[ms2.length] (commits ms2 ⟨[], [], []⟩)).shapes = [] ∧
    (redo^[ms2.length] (undo^[ms2.length] (commits ms2 ⟨[], [], []⟩))).shapes =
      (commits ms2 ⟨[], [], []⟩).shapes :=
  history_round_trip ⟨[], [], []⟩ ms2 (by decide) (by decide)

set_option maxRecDepth 40000 in
/-- C1 counterexample: after 51 committed mutations from the empty document,
51 undos do not restore the empty starting snapshot — the bottom history
entry was discarded by the 50-entry bound. -/
theorem history_round_trip_cex :
    (undo^[ms51.length] (commits ms51 ⟨[], [], []⟩)).shapes ≠ [] := by
  decide

/-- C6: sixty committed mutations from an empty history leave exactly 50 past
entries — the pre-mutation snapshots of the 50 most recent commits — and
every snapshot reachable by any number of undo calls is the final snapshot or
one of those 50 retained entries; hence each of the 10 oldest pre-mutation
snapshots, when distinct from all retained ones, is unreachable. -/
theorem bounded_history (ms : List (List Shape → List Shape)) (s0 : List Shape)
    (h60 : ms.length = 60) :
    (commits ms ⟨s0, [], []⟩).history.length = 50 ∧
    (commits ms ⟨s0, [], []⟩).history = (snapsAlong ms s0).drop 10 ∧
    (∀ k, (undo^[k] (commits ms ⟨s0, [], []⟩)).shapes ∈
      (commits ms ⟨s0, [], []⟩).shapes :: (snapsAlong ms s0).drop 10) ∧
    (∀ old ∈ (snapsAlong ms s0).take 10,
      old ∉ (commits ms ⟨s0, [], []⟩).shapes :: (snapsAlong ms s0).drop 10 →
      ∀ k, (undo^[k] (commits ms ⟨s0, [], []⟩)).shapes ≠ old) := by
  have hh : (⟨s0, [], []⟩ : EditorState).history.length ≤ 50 := by simp
  have h1 : (commits ms ⟨s0, [], []⟩).history = (snapsAlong ms s0).drop 10 := by
    rw [commits_history ms _ hh]
    show lastN 50 ([] ++ snapsAlong ms s0) = _
    rw [List.nil_append, lastN, snapsAlong_length, h60]
  refine ⟨?_, h1, ?_, ?_⟩
  · rw [h1, List.length_drop, snapsAlong_length, h60]
  · intro k
    have := undo_reach k (commits ms ⟨s0, [], []⟩)
    rwa [h1] at this
  · intro old _ hnot k heq
    apply hnot
    rw [← heq]
    have := undo_reach k (commits ms ⟨s0, [], []⟩)
    rwa [h1] at this

/-- C6 witness: the sixty concrete mutations leave exactly 50 past
entries. -/
theorem bounded_history_witness :
    (commits ms60 ⟨[], [], []⟩).history.length = 50 :=
  (bounded_history ms60 [] (by decide)).1

/-- C10: a commit whose mutator returns the snapshot unchanged still pushes
the pre-mutation snapshot (consuming one history slot, up to the bound of
50), still empties the future stack making `canRedo()` false, and the next
undo restores a snapshot equal to the current one. -/
theorem commit_always_consumes (m : List Shape → List Shape) (st : EditorState)
    (hid : m st.shapes = st.shapes) :
    (commit m st).future = [] ∧ canRedo (commit m st) = false ∧
    (commit m st).history.length = min (st.history.length + 1) 50 ∧
    (undo (commit m st)).shapes = (commit m st).shapes := by
  refine ⟨rfl, rfl, ?_, ?_⟩
  · simp only [commit, List.length_append, List.length_drop, List.length_cons,
      List.length_nil]
    omega
  · rw [show commit m st =
        ⟨m st.shapes, st.history.drop (st.history.length - 49) ++ [st.shapes], []⟩ from rfl,
      undo_concat]
    exact hid.symm

/-- C10 witness: a `bringForward` of the topmost shape (a no-op mutator)
still clears redo and the next undo restores the identical snapshot. -/
theorem commit_always_consumes_witness :
    canRedo (commit (bringForward "a") ⟨[mkRect 1, cexRect], [], [[mkRect 1]]⟩) = false ∧
    (undo (commit (bringForward "a") ⟨[mkRect 1, cexRect], [], [[mkRect 1]]⟩)).shapes =
      (commit (bringForward "a") ⟨[mkRect 1, cexRect], [], [[mkRect 1]]⟩).shapes := by
  have h := commit_always_consumes (bringForward "a")
    ⟨[mkRect 1, cexRect], [], [[mkRect 1]]⟩ (by decide)
  exact ⟨h.2.1, h.2.2.2⟩

/-- `findIndex` on a list ending in `p` whose other identifiers all differ
from `p`'s finds the last position. -/
theorem findIndex_concat_of_not_mem (p : Shape) :
    ∀ qs : List Shape, p.id ∉ qs.map Shape.id →
    findIndex (fun s => s.id == p.id) (qs ++ [p]) = some qs.length := by
  intro qs
  induction qs with
  | nil => intro _; simp [findIndex]
  | cons q rest ih =>
    intro hnot
    rw [List.map_cons, List.mem_cons] at hnot
    push_neg at hnot
    have hne : (q.id == p.id) = false := by
      rw [beq_eq_false_iff_ne]
      exact fun h => hnot.1 h.symm
    simp [findIndex, hne, ih hnot.2]

/-- C9: on a snapshot with unique identifiers, `bringForward` of the topmost
shape and `sendBackward` of the bottommost shape leave the sequence
unchanged. -/
theorem reorder_boundary_noop (prev : List Shape) (hne : prev ≠ [])
    (hnd : (prev.map Shape.id).Nodup) :
    bringForward ((prev.getLast hne).id) prev = prev ∧
    sendBackward ((prev.head hne).id) prev = prev := by
  constructor
  · have hsplit := List.dropLast_append_getLast hne
    have hnot : (prev.getLast hne).id ∉ prev.dropLast.map Shape.id := by
      have h2 := hnd
      rw [← hsplit, List.map_append, List.nodup_append] at h2
      intro hmem
      exact h2.2.2 hmem (by simp)
    have hfi : findIndex (fun s => s.id == (prev.getLast hne).id) prev =
        some prev.dropLast.length := by
      have h3 := findIndex_concat_of_not_mem (prev.getLast hne) prev.dropLast hnot
      rwa [hsplit] at h3
    simp [bringForward, hfi, List.length_dropLast]
  · obtain ⟨p, rest, rfl⟩ := List.exists_cons_of_ne_nil hne
    simp [sendBackward, findIndex]

/-- C9 witness: the boundary no-ops on a concrete two-shape snapshot. -/
theorem reorder_boundary_noop_witness :
    bringForward (([mkRect 1, cexRect].getLast (by simp)).id) [mkRect 1, cexRect] =
      [mkRect 1, cexRect] ∧
    sendBackward (([mkRect 1, cexRect].head (by simp)).id) [mkRect 1, cexRect] =
      [mkRect 1, cexRect] :=
  reorder_boundary_noop [mkRect 1, cexRect] (by simp) (by decide)

/-- C7: immediately after any `commit`, the future stack is empty and
`canRedo()` is false, for every history state and every mutator. -/
theorem commit_clears_future (m : List Shape → List Shape) (st : EditorState) :
    (commit m st).future = [] ∧ canRedo (commit m st) = false :=
  ⟨rfl, rfl⟩

/-- C3 counterexample: `fitToScreen` on a nonzero 19200 by 10800 container
yields scale 10, outside `[0.1, 4]` — the fit-to-screen scale is not
clamped. -/
theorem fitToScreen_scale_escapes_range :
    ¬ ((1/10 : Rat) ≤ (fitToScreen 19200 10800 ⟨1, 0, 0⟩).scale ∧
       (fitToScreen 19200 10800 ⟨1, 0, 0⟩).scale ≤ 4) := by
  have h : (fitToScreen 19200 10800 ⟨1, 0, 0⟩).scale = 10 := by
    norm_num [fitToScreen, SLIDE_W, SLIDE_H]
  rintro ⟨-, h4⟩
  rw [h] at h4
  norm_num at h4

/-- C3 (amended): `zoomBy` always clamps the resulting scale into
`[0.1, 4]`, for every factor, anchor, and prior viewport; `fitToScreen`
performs no such clamp. -/
theorem zoomBy_scale_in_range (factor px py : Rat) (vp : Viewport) :
    1/10 ≤ (zoomBy factor px py vp).scale ∧ (zoomBy factor px py vp).scale ≤ 4 := by
  refine ⟨le_max_left _ _, ?_⟩
  exact max_le (by norm_num) (min_le_left _ _)

/-- C5: pointer-anchored zoom leaves the anchor's document point fixed:
converting the anchor to document coordinates under the zoomed viewport gives
exactly the same point as under the original viewport (exact rational
arithmetic), including when the new scale is clamped. -/
theorem zoom_anchor_invariant (factor px py : Rat) (vp : Viewport)
    (h : 1/10 ≤ vp.scale) :
    toDocument px py (zoomBy factor px py vp) = toDocument px py vp := by
  have hS : vp.scale ≠ 0 := by
    intro h0
    rw [h0] at h
    norm_num at h
  have hN : clamp (vp.scale * factor) (1/10) 4 ≠ 0 := by
    intro h0
    have := le_max_left (1/10 : Rat) (min 4 (vp.scale * factor))
    rw [clamp] at h0
    rw [h0] at this
    norm_num at this
  simp only [toDocument, zoomBy, Prod.mk.injEq]
  constructor <;>
    rw [sub_sub_cancel, mul_div_cancel_right₀ _ hN]

/-- C5 witness: the anchor invariance at viewport scale 1, factor 2,
anchor (3, 4). -/
theorem zoom_anchor_invariant_witness :
    toDocument 3 4 (zoomBy 2 3 4 ⟨1, 0, 0⟩) = toDocument 3 4 ⟨1, 0, 0⟩ :=
  zoom_anchor_invariant 2 3 4 ⟨1, 0, 0⟩ (by norm_num)

/-- C2 counterexample: adding a shape whose identifier already occurs in the
snapshot is not rejected — the snapshot is extended from one shape to two. -/
theorem addShape_duplicate_extends :
    (mkRect 1).id ∈ List.map Shape.id [mkRect 1] ∧
    (addShape (mkRect 1) [mkRect 1]).length = 2 := by
  decide

/-- C2 (amended): the add operation performs no duplicate-identifier check:
even when a shape with the same identifier is already present, the add
succeeds and appends, growing the snapshot by one. -/
theorem addShape_appends_even_on_duplicate (s : Shape) (prev : List Shape)
    (_hdup : ∃ t ∈ prev, t.id = s.id) :
    (addShape s prev).length = prev.length + 1 ∧ s ∈ addShape s prev := by
  exact ⟨by simp [addShape], by simp [addShape]⟩

/-- C2 witness: the amended behavior at a concrete one-shape snapshot with a
colliding identifier. -/
theorem addShape_appends_even_on_duplicate_witness :
    (addShape (mkRect 1) [mkRect 1]).length = 1 + 1 ∧
    mkRect 1 ∈ addShape (mkRect 1) [mkRect 1] :=
  addShape_appends_even_on_duplicate (mkRect 1) [mkRect 1] ⟨mkRect 1, by simp, rfl⟩

/-- C4 counterexample: aligning `left` with grid snapping enabled (grid 32)
moves the orthogonal `y` coordinate of a shape at `y = 5` to 0 — the
orthogonal axis is not left unchanged. -/
theorem align_changes_orthogonal_axis :
    (alignShape true 32 .left cexRect).y ≠ cexRect.y := by
  have hy : cexRect.y = 5 := rfl
  have h : (alignShape true 32 .left cexRect).y = 0 := by
    rw [alignShape, setXY_y, hy]
    norm_num [snap, jsRound]
  rw [h, hy]
  norm_num

/-- C4 (amended): alignment writes pass both coordinates through grid
snapping, so the coordinate on the orthogonal axis ends up `snap`ped: it is
unchanged whenever snapping is disabled (or the prior value already lies on
the grid), and is rounded to the nearest grid multiple otherwise; the axis
implied by the direction is the only one receiving an alignment target. -/
theorem align_orthogonal_snapped (ge : Bool) (gs : Rat) (dir : AlignDir) (s : Shape) :
    ((dir = .left ∨ dir = .centerX ∨ dir = .right) →
      (alignShape ge gs dir s).y = snap ge gs s.y) ∧
    ((dir = .top ∨ dir = .centerY ∨ dir = .bottom) →
      (alignShape ge gs dir s).x = snap ge gs s.x) := by
  constructor <;> rintro (rfl | rfl | rfl) <;>
    simp [alignShape, setXY_x, setXY_y]

/-- C4 witness: with snapping disabled, aligning `left` leaves the `y`
coordinate of the concrete rectangle unchanged. -/
theorem align_orthogonal_snapped_witness :
    (alignShape false 32 .left cexRect).y = snap false 32 cexRect.y :=
  (align_orthogonal_snapped false 32 .left cexRect).1 (Or.inl rfl)

/-- C8: every transform-end handler commits the absolute resulting size —
the original size multiplied by the reported scale factor — floored at the
shape kind's minimum (10 for rect/image width and height, 5 for the circle
radius, 50 for the text box width), and resets the node's transient scale to
`(1, 1)`; when the product is at or above the minimum it is stored exactly. -/
theorem transformEnd_absolute_size (ge : Bool) (gs : Rat) (n : NodeEnd)
    (r : RectShape) (c : CircleShape) (t : TextShape) (i : ImageShape) :
    (10 ≤ ((rectTransformEnd ge gs r n).1).width ∧
     10 ≤ ((rectTransformEnd ge gs r n).1).height ∧
     (10 ≤ r.width * n.scaleX →
       ((rectTransformEnd ge gs r n).1).width = r.width * n.scaleX) ∧
     (10 ≤ r.height * n.scaleY →
       ((rectTransformEnd ge gs r n).1).height = r.height * n.scaleY) ∧
     (rectTransformEnd ge gs r n).2 = (1, 1)) ∧
    (5 ≤ ((circleTransformEnd ge gs c n).1).radius ∧
     (5 ≤ c.radius * n.scaleX →
       ((circleTransformEnd ge gs c n).1).radius = c.radius * n.scaleX) ∧
     (circleTransformEnd ge gs c n).2 = (1, 1)) ∧
    (((textTransformEnd ge gs t n).1).width.isSome ∧
     50 ≤ ((textTransformEnd ge gs t n).1).width.getD 0 ∧
     (50 ≤ (t.width.getD 300) * n.scaleX →
       ((textTransformEnd ge gs t n).1).width = some ((t.width.getD 300) * n.scaleX)) ∧
     (textTransformEnd ge gs t n).2 = (1, 1)) ∧
    (10 ≤ ((imageTransformEnd ge gs i n).1).width ∧
     10 ≤ ((imageTransformEnd ge gs i n).1).height ∧
     (10 ≤ i.width * n.scaleX →
       ((imageTransformEnd ge gs i n).1).width = i.width * n.scaleX) ∧
     (10 ≤ i.height * n.scaleY →
       ((imageTransformEnd ge gs i n).1).height = i.height * n.scaleY) ∧
     (imageTransformEnd ge gs i n).2 = (1, 1)) := by
  refine ⟨⟨le_max_left _ _, le_max_left _ _, fun h => max_eq_right h,
           fun h => max_eq_right h, rfl⟩,
         ⟨le_max_left _ _, fun h => max_eq_right h, rfl⟩,
         ⟨rfl, le_max_left _ _, fun h => ?_, rfl⟩,
         ⟨le_max_left _ _, le_max_left _ _, fun h => max_eq_right h,
           fun h => max_eq_right h, rfl⟩⟩
  show some (max 50 ((t.width.getD 300) * n.scaleX)) = _
  rw [max_eq_right h]

/-- C8 witness: the handlers at concrete shapes with scale factors (2, 3):
the stored sizes are the exact products and the node scale is reset. -/
theorem transformEnd_absolute_size_witness :
    10 ≤ ((rectTransformEnd false 32 wRect wNode).1).width ∧
    ((rectTransformEnd false 32 wRect wNode).1).width = 20 * 2 ∧
    ((circleTransformEnd false 32 wCircle wNode).1).radius = 4 * 2 ∧
    ((textTransformEnd false 32 wText wNode).1).width = some (300 * 2) ∧
    (imageTransformEnd false 32 wImage wNode).2 = (1, 1) := by
  obtain ⟨⟨h1, -, h3, -, -⟩, ⟨-, h7, -⟩, ⟨-, -, h10, -⟩, ⟨-, -, -, -, h16⟩⟩ :=
    transformEnd_absolute_size false 32 wNode wRect wCircle wText wImage
  exact ⟨h1, h3 (by norm_num [wRect, wNode]), h7 (by norm_num [wCircle, wNode]),
         h10 (by norm_num [wText, wNode]), h16⟩

end SlideEditor
